import Mathlib

/-!
Verification of the cosmos-validators-exporter data-collection components:
the fan-out fetchers (`UnbondsFetcher`, `StakingParamsFetcher` from
`pkg/fetchers/unbonds.go`) and the `PriceGenerator` projection, together with
the typed snapshot store they communicate through.

Remote calls are modelled by an oracle: a function from a sub-call's target
(chain name, validator address) to the triple the Go RPC client returns
(optional response, optional query-info record, optional error).  The
goroutine fan-out of a fetcher is modelled as a fold of atomic per-sub-unit
critical sections over a list of sub-units; the source performs every shared
write inside the single per-fetch mutex, so one sub-unit's effect on the
shared accumulator is atomic, and an interleaving of the goroutines is a
permutation of the sub-unit list.
-/

/-- Task identity (`constants.FetcherName` is a string type in the source). -/
abbrev FetcherName := String

/-- Modelled from the spec: the `constants` package is not in src; the
identity values are opaque distinct labels. -/
def FetcherNamePrice : FetcherName := "price"

/-- Modelled from the spec: opaque identity label for the unbonds task. -/
def FetcherNameUnbonds : FetcherName := "unbonds"

/-- Modelled from the spec: opaque identity label for the staking-params task. -/
def FetcherNameStakingParams : FetcherName := "staking_params"

/-- Modelled from the spec: a DiagnosticRecord (`types.QueryInfo`, whose
definition is not in src) carries a target, an outcome and a timing; it is
produced by the RPC client and carried opaquely by the fetchers. -/
structure QueryInfo where
  target : String
  success : Bool
  duration : Nat
deriving DecidableEq, Repr

/-- A validator entry of a chain's configuration (`config.Validator`); the
fetcher only reads its address. -/
structure Validator where
  address : String
deriving DecidableEq, Repr

/-- A consumer chain entry of a chain's configuration; the fetcher only
reads its name. -/
structure ConsumerChain where
  name : String
deriving DecidableEq, Repr

/-- The slice of `config.Chain` the two fetchers read: the chain name, the
validator list and the consumer-chain list. -/
structure Chain where
  name : String
  validators : List Validator
  consumerChains : List ConsumerChain
deriving DecidableEq, Repr

/-- `types.UnbondsResponse.Pagination`: the fetcher reads only `Total`. -/
structure Pagination where
  total : Nat
deriving DecidableEq, Repr

/-- `types.UnbondsResponse` as read by the unbonds fetcher. -/
structure UnbondsResponse where
  pagination : Pagination
deriving DecidableEq, Repr

/-- Modelled from the spec: `types.StakingParamsResponse` is not in src; the
staking-params fetcher carries it opaquely, so it is an opaque token. -/
structure StakingParamsResponse where
  raw : Nat
deriving DecidableEq, Repr

/-- The triple returned by `rpc.GetUnbondsCount(validator, ctx)`:
(response, query, err), each position nilable. -/
structure UnbondsCall where
  response : Option UnbondsResponse
  query : Option QueryInfo
  err : Option String
deriving DecidableEq, Repr

/-- The triple returned by `rpc.GetStakingParams(ctx)`. -/
structure StakingParamsCall where
  params : Option StakingParamsResponse
  query : Option QueryInfo
  err : Option String
deriving DecidableEq, Repr

/-- `map[string]map[string]uint64` of the unbonds fetcher, as a nested
partial map: an outer chain-name key is present iff it maps to `some`. -/
abbrev UnbondsMap := String → Option (String → Option Nat)

/-- `map[string]*types.StakingParamsResponse` of the staking-params fetcher. -/
abbrev ParamsMap := String → Option StakingParamsResponse

/-- `UnbondsData` (the unbonds fetcher's output payload). -/
structure UnbondsData where
  unbonds : UnbondsMap

/-- `StakingParamsData` (the staking-params fetcher's output payload). -/
structure StakingParamsData where
  params : ParamsMap

/-- One token price as read by the price generator (`fetchersPkg.PriceData`
entries): source, base currency and value.  The float64 value is never
computed on by the code under verification, only carried, so it is modelled
by an exact numeric type. -/
structure PriceInfo where
  source : String
  baseCurrency : String
  value : Rat
deriving DecidableEq, Repr

/-- `fetchersPkg.PriceData`: chain name, then denom, to a price.  The Go
maps are modelled as association lists; map-key uniqueness becomes Nodup
hypotheses where a theorem needs it. -/
structure PriceData where
  prices : List (String × List (String × PriceInfo))
deriving DecidableEq, Repr

/-- The dynamic (`interface{}`) value stored in the snapshot under a task
identity: one constructor per payload type in scope. -/
inductive StateValue
  | price (d : PriceData)
  | unbonds (d : UnbondsData)
  | stakingParams (d : StakingParamsData)

/-- A dependency output passed to `Fetch` through the variadic
`data ...interface{}` parameter. -/
abbrev DepOutput := StateValue

/-- Modelled from the spec: the `state` package (the Snapshot store) is not
in src; per the spec it is a mapping from task identity to a dynamically
typed value, populated by `put` and read by the typed `get`. -/
structure State where
  entries : List (String × StateValue)

/-- Modelled from the spec: the untyped lookup underlying `StateGet` —
the stored value under an identity, if any. -/
def stateLookup (s : State) (name : String) : Option StateValue :=
  s.entries.lookup name

/-- The runtime type test of the generic `StateGet[T]` instantiated at
`PriceData`: the stored dynamic value viewed at that type. -/
def StateValue.asPrice : StateValue → Option PriceData
  | .price d => some d
  | _ => none

/-- The runtime type test instantiated at `UnbondsData`. -/
def StateValue.asUnbonds : StateValue → Option UnbondsData
  | .unbonds d => some d
  | _ => none

/-- Modelled from the spec: `statePkg.StateGet[T](state, name)` returns
`(value, found)`; `found` is false when the identity was never written or
the stored value's runtime type is not `T`.  Instantiated at `PriceData`. -/
def StateGetPrice (s : State) (name : String) : Option PriceData :=
  (stateLookup s name).bind StateValue.asPrice

/-- Modelled from the spec: `StateGet` instantiated at `UnbondsData`. -/
def StateGetUnbonds (s : State) (name : String) : Option UnbondsData :=
  (stateLookup s name).bind StateValue.asUnbonds

/-! ## UnbondsFetcher (pkg/fetchers/unbonds.go, lines 40-98) -/

/-- The unbonds fetcher: its configured chains and its RPC clients, the
latter modelled as an oracle from (chain name, validator address) to the
result of `rpc.GetUnbondsCount`. -/
structure UnbondsFetcher where
  chains : List Chain
  rpc : String → String → UnbondsCall

/-- `func (q *UnbondsFetcher) Dependencies() []constants.FetcherName`:
returns the empty list. -/
def UnbondsFetcher.Dependencies (_ : UnbondsFetcher) : List FetcherName := []

/-- `allUnbonds[chain.Name][validator] = unbondsResponse.Pagination.Total`:
a write into the inner map under an outer key.  The source initializes the
outer key before spawning the goroutines that write under it, so the write
is a no-op when the outer key is absent (the Go code would panic there;
that state is unreachable in `Fetch`). -/
def writeUnbond (m : UnbondsMap) (c v : String) (t : Nat) : UnbondsMap :=
  fun n =>
    if n = c then (m c).map (fun inner => fun w => if w = v then some t else inner w)
    else m n

/-- One goroutine body of `UnbondsFetcher.Fetch` (lines 63-91), as the
atomic critical section it performs under the mutex: append the query
record when non-nil, then on error or nil response write nothing, else
write the unbond count under (chain, validator). -/
structure UnbondsAcc where
  unbonds : UnbondsMap
  queryInfos : List QueryInfo

/-- The per-sub-unit state transformer of the unbonds fan-out. -/
def unbondsApplyUnit (oracle : String → String → UnbondsCall)
    (acc : UnbondsAcc) (u : String × String) : UnbondsAcc :=
  let r := oracle u.1 u.2
  let qs := acc.queryInfos ++ r.query.toList
  if r.err.isSome then { acc with queryInfos := qs }
  else
    match r.response with
    | none => { acc with queryInfos := qs }
    | some resp =>
        { unbonds := writeUnbond acc.unbonds u.1 u.2 resp.pagination.total
          queryInfos := qs }

/-- The map component of one sub-unit's critical section. -/
def unbondsMapStep (oracle : String → String → UnbondsCall)
    (m : UnbondsMap) (u : String × String) : UnbondsMap :=
  let r := oracle u.1 u.2
  if r.err.isSome then m
  else
    match r.response with
    | none => m
    | some resp => writeUnbond m u.1 u.2 resp.pagination.total

/-- Lines 54-57: the main loop initializes `allUnbonds[chain.Name]` to an
empty inner map for every configured chain, before any sub-unit write. -/
def unbondsInit (chains : List Chain) : UnbondsMap :=
  chains.foldl (fun m ch => fun n => if n = ch.name then some (fun _ => none) else m n)
    (fun _ => none)

/-- The sub-units launched by `Fetch`: one goroutine per (chain, validator)
pair, in program order. -/
def unbondsSubUnits (chains : List Chain) : List (String × String) :=
  chains.flatMap (fun ch => ch.validators.map (fun v => (ch.name, v.address)))

/-- `UnbondsFetcher.Fetch` run under a given interleaving of its sub-units:
the initialized outer map, then each sub-unit's critical section in the
given order. -/
def unbondsFetchSched (oracle : String → String → UnbondsCall)
    (chains : List Chain) (order : List (String × String)) : UnbondsAcc :=
  order.foldl (unbondsApplyUnit oracle) { unbonds := unbondsInit chains, queryInfos := [] }

/-- `func (q *UnbondsFetcher) Fetch(ctx, data ...interface{})`: the variadic
dependency outputs are accepted and ignored; the canonical (program-order)
interleaving is taken as the reference result. -/
def UnbondsFetcher.Fetch (q : UnbondsFetcher) (_data : List DepOutput) :
    UnbondsData × List QueryInfo :=
  let acc := unbondsFetchSched q.rpc q.chains (unbondsSubUnits q.chains)
  (⟨acc.unbonds⟩, acc.queryInfos)

/-- Whether the sub-call at (chain, validator) succeeds: nil error and
non-nil response. -/
def unitOk (oracle : String → String → UnbondsCall) (c v : String) : Bool :=
  (oracle c v).err.isNone && (oracle c v).response.isSome

/-- The unbond count the sub-call at (chain, validator) would store. -/
def unitTotal (oracle : String → String → UnbondsCall) (c v : String) : Nat :=
  match (oracle c v).response with
  | some resp => resp.pagination.total
  | none => 0

/-- Reading the nested output map at (chain, validator). -/
def lookupUnbond (m : UnbondsMap) (c v : String) : Option Nat :=
  (m c).bind (fun inner => inner v)

/-! ## StakingParamsFetcher (pkg/fetchers/unbonds.go, lines 142-197) -/

/-- The staking-params fetcher: its chains and its RPC clients, modelled as
an oracle from chain name to the result of `rpc.GetStakingParams`. -/
structure StakingParamsFetcher where
  chains : List Chain
  rpc : String → StakingParamsCall

/-- `func (q *StakingParamsFetcher) Dependencies()`: the empty list. -/
def StakingParamsFetcher.Dependencies (_ : StakingParamsFetcher) : List FetcherName := []

/-- The keys a successful fetch for a chain writes: the provider chain's
name followed by its consumer chains' names (lines 186-189). -/
def chainWriteKeys (ch : Chain) : List String :=
  ch.name :: ch.consumerChains.map ConsumerChain.name

/-- One goroutine body of `StakingParamsFetcher.Fetch` (lines 165-191) as
its atomic critical section: append the query record when non-nil; on error
or nil params write nothing; otherwise store the params under the provider
name and then under each consumer chain name. -/
structure StakingAcc where
  params : ParamsMap
  queryInfos : List QueryInfo

/-- The per-chain state transformer of the staking-params fan-out. -/
def stakingApplyChain (oracle : String → StakingParamsCall)
    (acc : StakingAcc) (ch : Chain) : StakingAcc :=
  let r := oracle ch.name
  let qs := acc.queryInfos ++ r.query.toList
  if r.err.isSome then { acc with queryInfos := qs }
  else
    match r.params with
    | none => { acc with queryInfos := qs }
    | some p =>
        { params :=
            (ch.consumerChains.map ConsumerChain.name).foldl
              (fun m n => fun k => if k = n then some p else m k)
              (fun k => if k = ch.name then some p else acc.params k)
          queryInfos := qs }

/-- The params the sub-call for a chain stores, if it stores at all: nil on
error, else the (possibly nil) response. -/
def chainParamsResult (oracle : String → StakingParamsCall) (ch : Chain) :
    Option StakingParamsResponse :=
  if (oracle ch.name).err.isSome then none else (oracle ch.name).params

/-- The params-map component of one chain's critical section. -/
def paramsStep (oracle : String → StakingParamsCall) (m : ParamsMap) (ch : Chain) : ParamsMap :=
  match chainParamsResult oracle ch with
  | none => m
  | some p => fun k => if k ∈ chainWriteKeys ch then some p else m k

/-- `func (q *StakingParamsFetcher) Fetch(ctx, data ...interface{})` in
program order; the variadic dependency outputs are ignored. -/
def StakingParamsFetcher.Fetch (q : StakingParamsFetcher) (_data : List DepOutput) :
    StakingParamsData × List QueryInfo :=
  let acc := q.chains.foldl (stakingApplyChain q.rpc) { params := fun _ => none, queryInfos := [] }
  (⟨acc.params⟩, acc.queryInfos)

/-! ## PriceGenerator (the projection from src/unnamed/part_000) -/

/-- One exported time series of a gauge vector: its label assignment and
its current value. -/
structure MetricObservation where
  labels : List (String × String)
  value : Rat
deriving DecidableEq, Repr

/-- A prometheus `GaugeVec` as the projection builds it: name, help, label
names, and the observations set so far. -/
structure GaugeVec where
  name : String
  help : String
  labelNames : List String
  observations : List MetricObservation
deriving DecidableEq, Repr

/-- `gauge.With(labels).Set(v)`: a gauge vector keys its series by the label
assignment; setting an existing series overwrites its value, setting a new
one appends it. -/
def gaugeSet (obs : List MetricObservation) (ls : List (String × String)) (v : Rat) :
    List MetricObservation :=
  if obs.any (fun o => decide (o.labels = ls)) then
    obs.map (fun o => if o.labels = ls then ⟨ls, v⟩ else o)
  else obs ++ [⟨ls, v⟩]

/-- Modelled from the spec: the metric name stem (`constants.MetricsPrefix`
is not in src); an opaque string constant. -/
def metricsStem : String := "cosmos_validators_exporter_"

/-- The label assignment the price generator sets for one (chain, denom)
price (part_000 lines 34-39). -/
def priceLabels (chainName denom : String) (p : PriceInfo) : List (String × String) :=
  [("chain", chainName), ("denom", denom), ("source", p.source),
   ("base_currency", p.baseCurrency)]

/-- The double range loop of `PriceGenerator.Generate` (part_000 lines
32-41) over a starting observation list. -/
def priceFold (prices : List (String × List (String × PriceInfo)))
    (obs : List MetricObservation) : List MetricObservation :=
  prices.foldl
    (fun acc cp =>
      cp.2.foldl (fun acc2 dp => gaugeSet acc2 (priceLabels cp.1 dp.1 dp.2) dp.2.value) acc)
    obs

/-- `func (g *PriceGenerator) Generate(state *statePkg.State)`: look up the
price data by identity; on not-found return the empty collector list, else
build the gauge vector and return it as the only collector. -/
def PriceGenerator.Generate (s : State) : List GaugeVec :=
  match StateGetPrice s FetcherNamePrice with
  | none => []
  | some data =>
      [{ name := metricsStem ++ "price"
         help := "Price of 1 token in display denom in USD"
         labelNames := ["chain", "denom", "source", "base_currency"]
         observations := priceFold data.prices [] }]

/-- `PriceGenerator.Generate` with its access to the shared state made
explicit in a state monad: the body only ever reads (`get`); a mutating
implementation would have to use `set`, which this one does not. -/
def PriceGenerator.GenerateM : StateM State (List GaugeVec) := do
  let s ← get
  match StateGetPrice s FetcherNamePrice with
  | none => pure []
  | some data =>
      pure [{ name := metricsStem ++ "price"
              help := "Price of 1 token in display denom in USD"
              labelNames := ["chain", "denom", "source", "base_currency"]
              observations := priceFold data.prices [] }]

/-! ## Infrastructure lemmas: unbonds fan-out -/

/-- The map component of a sub-unit's critical section, in terms of the
success test and the stored total. -/
theorem unbondsMapStep_eq (oracle : String → String → UnbondsCall) (m : UnbondsMap)
    (u : String × String) :
    unbondsMapStep oracle m u =
      if unitOk oracle u.1 u.2 = true then
        writeUnbond m u.1 u.2 (unitTotal oracle u.1 u.2)
      else m := by
  cases h1 : (oracle u.1 u.2).err <;> cases h2 : (oracle u.1 u.2).response <;>
    simp [unbondsMapStep, unitOk, unitTotal, h1, h2]

/-- A critical section's effect splits into its map component and its
query-append component. -/
theorem unbondsApplyUnit_unbonds (oracle : String → String → UnbondsCall)
    (a : UnbondsAcc) (u : String × String) :
    (unbondsApplyUnit oracle a u).unbonds = unbondsMapStep oracle a.unbonds u := by
  cases h1 : (oracle u.1 u.2).err <;> cases h2 : (oracle u.1 u.2).response <;>
    simp [unbondsApplyUnit, unbondsMapStep, h1, h2]

/-- The diagnostics component of a critical section appends the sub-call's
query record when present, regardless of the sub-call's success. -/
theorem unbondsApplyUnit_queries (oracle : String → String → UnbondsCall)
    (a : UnbondsAcc) (u : String × String) :
    (unbondsApplyUnit oracle a u).queryInfos =
      a.queryInfos ++ (oracle u.1 u.2).query.toList := by
  cases h1 : (oracle u.1 u.2).err <;> cases h2 : (oracle u.1 u.2).response <;>
    simp [unbondsApplyUnit, h1, h2]

/-- The fan-out's map component is the fold of the map steps. -/
theorem unbonds_foldl_unbonds (oracle : String → String → UnbondsCall)
    (l : List (String × String)) (a : UnbondsAcc) :
    (l.foldl (unbondsApplyUnit oracle) a).unbonds =
      l.foldl (unbondsMapStep oracle) a.unbonds := by
  induction l generalizing a with
  | nil => rfl
  | cons u t ih =>
    rw [List.foldl_cons, List.foldl_cons, ih, unbondsApplyUnit_unbonds]

/-- The fan-out's diagnostics are exactly the non-nil query records of the
processed sub-units, in processing order. -/
theorem unbonds_foldl_queries (oracle : String → String → UnbondsCall)
    (l : List (String × String)) (a : UnbondsAcc) :
    (l.foldl (unbondsApplyUnit oracle) a).queryInfos =
      a.queryInfos ++ l.filterMap (fun u => (oracle u.1 u.2).query) := by
  induction l generalizing a with
  | nil => simp
  | cons u t ih =>
    rw [List.foldl_cons, ih, unbondsApplyUnit_queries, List.filterMap_cons]
    cases h : (oracle u.1 u.2).query <;> simp [h]

/-- A write into the nested map never creates or removes an outer key. -/
theorem writeUnbond_isSome (m : UnbondsMap) (c v : String) (t : Nat) (n : String) :
    ((writeUnbond m c v t) n).isSome = (m n).isSome := by
  unfold writeUnbond
  by_cases h : n = c <;> simp [h]

/-- Reading back the written cell: present outer key gives the written
total, absent outer key leaves the cell absent. -/
theorem lookupUnbond_writeUnbond_self (m : UnbondsMap) (c v : String) (t : Nat) :
    lookupUnbond (writeUnbond m c v t) c v =
      if (m c).isSome = true then some t else lookupUnbond m c v := by
  unfold lookupUnbond writeUnbond
  cases h : m c <;> simp [h]

/-- A write leaves every other cell unchanged. -/
theorem lookupUnbond_writeUnbond_ne (m : UnbondsMap) (c v : String) (t : Nat)
    (c' v' : String) (h : (c', v') ≠ (c, v)) :
    lookupUnbond (writeUnbond m c v t) c' v' = lookupUnbond m c' v' := by
  unfold lookupUnbond writeUnbond
  by_cases hc : c' = c
  · subst hc
    have hv : v' ≠ v := by
      intro hv; exact h (by rw [hv])
    cases hm : m c' <;> simp [hm, hv]
  · simp [hc]

/-- A map step never creates or removes an outer key. -/
theorem unbondsMapStep_isSome (oracle : String → String → UnbondsCall)
    (m : UnbondsMap) (u : String × String) (n : String) :
    ((unbondsMapStep oracle m u) n).isSome = (m n).isSome := by
  rw [unbondsMapStep_eq]
  by_cases h : unitOk oracle u.1 u.2 = true <;> simp [h, writeUnbond_isSome]

/-- The whole fan-out never creates or removes an outer key: the outer keys
are exactly those of the initialized map. -/
theorem foldl_mapStep_isSome (oracle : String → String → UnbondsCall)
    (l : List (String × String)) (m : UnbondsMap) (n : String) :
    ((l.foldl (unbondsMapStep oracle) m) n).isSome = (m n).isSome := by
  induction l generalizing m with
  | nil => rfl
  | cons u t ih =>
    rw [List.foldl_cons, ih, unbondsMapStep_isSome]

/-- Pointwise description of the fan-out: a cell holds the sub-call's total
iff its sub-unit was processed, succeeded, and its chain's outer key was
initialized; every other cell keeps its initial value. -/
theorem foldl_mapStep_lookup (oracle : String → String → UnbondsCall)
    (l : List (String × String)) (m : UnbondsMap) (c v : String) :
    lookupUnbond (l.foldl (unbondsMapStep oracle) m) c v =
      if (c, v) ∈ l ∧ unitOk oracle c v = true ∧ (m c).isSome = true then
        some (unitTotal oracle c v)
      else lookupUnbond m c v := by
  induction l generalizing m with
  | nil => simp
  | cons u t ih =>
    rw [List.foldl_cons, ih]
    by_cases hu : u = (c, v)
    · subst hu
      by_cases hok : unitOk oracle c v = true
      · rw [unbondsMapStep_eq]
        simp only [hok, if_true]
        rw [lookupUnbond_writeUnbond_self]
        by_cases hs : (m c).isSome = true
        · simp [hok, hs, writeUnbond_isSome]
        · simp [hok, hs, writeUnbond_isSome]
      · rw [unbondsMapStep_eq]
        simp [hok]
    · have hmem : ((c, v) ∈ u :: t) ↔ ((c, v) ∈ t) := by
        constructor
        · intro hh
          rcases List.mem_cons.mp hh with hh | hh
          · exact absurd hh.symm hu
          · exact hh
        · intro hh
          exact List.mem_cons_of_mem _ hh
      have hne : (c, v) ≠ u := fun hh => hu hh.symm
      have hlook : lookupUnbond (unbondsMapStep oracle m u) c v = lookupUnbond m c v := by
        rw [unbondsMapStep_eq]
        by_cases hok : unitOk oracle u.1 u.2 = true
        · simp only [hok, if_true]
          exact lookupUnbond_writeUnbond_ne m u.1 u.2 _ c v (by simpa using hne)
        · simp [hok]
      rw [unbondsMapStep_isSome, hlook]
      exact if_congr (and_congr_left' hmem.symm) rfl rfl

/-- The initialization loop, pointwise. -/
theorem unbondsInit_foldl (chains : List Chain) (m : UnbondsMap) (c : String) :
    (chains.foldl (fun m ch => fun n => if n = ch.name then some (fun _ => none) else m n) m) c =
      if c ∈ chains.map Chain.name then some (fun _ => none) else m c := by
  induction chains generalizing m with
  | nil => simp
  | cons ch t ih =>
    rw [List.foldl_cons, ih]
    by_cases h : c ∈ t.map Chain.name
    · simp [h]
    · by_cases h2 : c = ch.name <;> simp [h, h2]

/-- The initialized outer map: an empty inner map per configured chain
name, nothing else. -/
theorem unbondsInit_eq (chains : List Chain) (c : String) :
    unbondsInit chains c =
      if c ∈ chains.map Chain.name then some (fun _ => none) else none := by
  unfold unbondsInit
  rw [unbondsInit_foldl]

/-- Every cell of the initialized map is empty. -/
theorem lookupUnbond_init (chains : List Chain) (c v : String) :
    lookupUnbond (unbondsInit chains) c v = none := by
  unfold lookupUnbond
  rw [unbondsInit_eq]
  by_cases h : c ∈ chains.map Chain.name <;> simp [h]

/-- A sub-unit of the fan-out belongs to a configured chain, so its outer
key is initialized. -/
theorem subUnit_init_isSome (chains : List Chain) (c v : String)
    (h : (c, v) ∈ unbondsSubUnits chains) :
    ((unbondsInit chains) c).isSome = true := by
  rw [unbondsInit_eq]
  have : c ∈ chains.map Chain.name := by
    simp only [unbondsSubUnits, List.mem_flatMap, List.mem_map] at h
    obtain ⟨ch, hch, vl, _, heq⟩ := h
    simp only [List.mem_map]
    exact ⟨ch, hch, (Prod.mk.injEq _ _ _ _ ▸ heq).1⟩
  simp [this]

/-- A fold is invariant under permutation of its input when its step
function commutes with itself. -/
theorem foldl_perm_of_comm {α β : Type} {f : β → α → β}
    (comm : ∀ z x y, f (f z x) y = f (f z y) x)
    {l₁ l₂ : List α} (h : l₁.Perm l₂) : ∀ b : β, l₁.foldl f b = l₂.foldl f b := by
  induction h with
  | nil => intro b; rfl
  | cons x _ ih => intro b; rw [List.foldl_cons, List.foldl_cons, ih]
  | swap x y l => intro b; rw [List.foldl_cons, List.foldl_cons, List.foldl_cons,
      List.foldl_cons, comm]
  | trans _ _ ih₁ ih₂ => intro b; rw [ih₁, ih₂]

/-- Two writes into the nested map commute when an identical target implies
an identical written value. -/
theorem writeUnbond_comm (m : UnbondsMap) (c₁ v₁ : String) (t₁ : Nat)
    (c₂ v₂ : String) (t₂ : Nat) (h : c₁ = c₂ → v₁ = v₂ → t₁ = t₂) :
    writeUnbond (writeUnbond m c₁ v₁ t₁) c₂ v₂ t₂ =
      writeUnbond (writeUnbond m c₂ v₂ t₂) c₁ v₁ t₁ := by
  funext n
  unfold writeUnbond
  by_cases h1 : n = c₁ <;> by_cases h2 : n = c₂
  · have hc : c₂ = c₁ := h2.symm.trans h1
    subst hc
    subst h1
    simp only [if_pos rfl, eq_self_iff_true, if_true, ite_true, Option.map_map]
    apply congrArg (fun f => Option.map f (m n))
    funext inner
    funext w
    simp only [Function.comp]
    by_cases hw1 : w = v₁ <;> by_cases hw2 : w = v₂
    · simp [hw1, hw2, h rfl (hw1.symm.trans hw2)]
    · simp [hw1, hw2]
      intro hv
      exact absurd (hw1.trans hv) hw2
    · simp [hw1, hw2]
      rw [if_neg (fun hv => hw1 (hw2.trans hv))]
    · simp [hw1, hw2]
  · have hcc : ¬c₁ = c₂ := fun hh => h2 (h1.trans hh)
    subst h1
    simp [h2, hcc]
  · have hcc : ¬c₂ = c₁ := fun hh => h1 (h2.trans hh)
    subst h2
    simp [h1, hcc]
  · simp [h1, h2]

/-- Two sub-units' map steps commute. -/
theorem unbondsMapStep_comm (oracle : String → String → UnbondsCall)
    (m : UnbondsMap) (u w : String × String) :
    unbondsMapStep oracle (unbondsMapStep oracle m u) w =
      unbondsMapStep oracle (unbondsMapStep oracle m w) u := by
  rw [unbondsMapStep_eq, unbondsMapStep_eq, unbondsMapStep_eq, unbondsMapStep_eq]
  by_cases hu : unitOk oracle u.1 u.2 = true <;>
    by_cases hw : unitOk oracle w.1 w.2 = true <;> simp [hu, hw]
  exact writeUnbond_comm m u.1 u.2 _ w.1 w.2 _ (fun hc hv => by rw [hc, hv])

/-! ## Infrastructure lemmas: staking-params fan-out -/

/-- Writing one value under a list of keys, pointwise. -/
theorem paramsWrite_foldl (names : List String) (p : StakingParamsResponse)
    (m : ParamsMap) (k : String) :
    (names.foldl (fun m n => fun k => if k = n then some p else m k) m) k =
      if k ∈ names then some p else m k := by
  induction names generalizing m with
  | nil => simp
  | cons n t ih =>
    rw [List.foldl_cons, ih]
    by_cases h : k ∈ t
    · simp [h]
    · by_cases h2 : k = n <;> simp [h, h2]

/-- A chain's critical section splits into its params-map component and its
query-append component; the map component is `paramsStep`. -/
theorem stakingApplyChain_params (oracle : String → StakingParamsCall)
    (acc : StakingAcc) (ch : Chain) :
    (stakingApplyChain oracle acc ch).params = paramsStep oracle acc.params ch := by
  cases h1 : (oracle ch.name).err <;> cases h2 : (oracle ch.name).params <;>
    simp only [stakingApplyChain, paramsStep, chainParamsResult, h1, h2,
      Option.isSome_none, Option.isSome_some, if_true, if_false,
      Bool.false_eq_true, ite_true, ite_false]
  funext k
  rw [paramsWrite_foldl]
  by_cases hk : k ∈ ch.consumerChains.map ConsumerChain.name
  · simp [chainWriteKeys, hk]
  · by_cases hk2 : k = ch.name <;> simp [chainWriteKeys, hk, hk2]

/-- The diagnostics component of a chain's critical section appends the
query record when present, regardless of success. -/
theorem stakingApplyChain_queries (oracle : String → StakingParamsCall)
    (acc : StakingAcc) (ch : Chain) :
    (stakingApplyChain oracle acc ch).queryInfos =
      acc.queryInfos ++ (oracle ch.name).query.toList := by
  cases h1 : (oracle ch.name).err <;> cases h2 : (oracle ch.name).params <;>
    simp [stakingApplyChain, h1, h2]

/-- The staking fan-out's params map is the fold of the params steps. -/
theorem staking_foldl_params (oracle : String → StakingParamsCall)
    (l : List Chain) (a : StakingAcc) :
    (l.foldl (stakingApplyChain oracle) a).params = l.foldl (paramsStep oracle) a.params := by
  induction l generalizing a with
  | nil => rfl
  | cons ch t ih =>
    rw [List.foldl_cons, List.foldl_cons, ih, stakingApplyChain_params]

/-- The staking fan-out's diagnostics are exactly the non-nil query records
of the processed chains, in processing order. -/
theorem staking_foldl_queries (oracle : String → StakingParamsCall)
    (l : List Chain) (a : StakingAcc) :
    (l.foldl (stakingApplyChain oracle) a).queryInfos =
      a.queryInfos ++ l.filterMap (fun ch => (oracle ch.name).query) := by
  induction l generalizing a with
  | nil => simp
  | cons ch t ih =>
    rw [List.foldl_cons, ih, stakingApplyChain_queries, List.filterMap_cons]
    cases h : (oracle ch.name).query <;> simp [h]

/-- Chains that never write a key leave it unchanged. -/
theorem staking_fold_frame (oracle : String → StakingParamsCall)
    (l : List Chain) (m : ParamsMap) (n : String)
    (h : ∀ ch ∈ l, n ∉ chainWriteKeys ch) :
    (l.foldl (paramsStep oracle) m) n = m n := by
  induction l generalizing m with
  | nil => rfl
  | cons ch t ih =>
    rw [List.foldl_cons, ih _ (fun ch' hch' => h ch' (List.mem_cons_of_mem _ hch'))]
    unfold paramsStep
    cases hr : chainParamsResult oracle ch
    · rfl
    · simp [h ch (List.mem_cons_self _ _)]

/-- A successfully fetched chain's params end up under every one of its
write keys, provided no other configured chain writes those keys. -/
theorem staking_fold_keys (oracle : String → StakingParamsCall)
    (ch : Chain) (p : StakingParamsResponse)
    (hres : chainParamsResult oracle ch = some p) :
    ∀ (l : List Chain) (m : ParamsMap), ch ∈ l →
      (∀ ch' ∈ l, ∀ n ∈ chainWriteKeys ch, n ∈ chainWriteKeys ch' → ch' = ch) →
      ∀ n ∈ chainWriteKeys ch, (l.foldl (paramsStep oracle) m) n = some p := by
  intro l
  induction l with
  | nil => intro m hmem; exact absurd hmem (List.not_mem_nil _)
  | cons h t ih =>
    intro m hmem hdisj n hn
    by_cases hcht : ch ∈ t
    · rw [List.foldl_cons]
      exact ih _ hcht (fun ch' hch' => hdisj ch' (List.mem_cons_of_mem _ hch')) n hn
    · have hch : h = ch := by
        rcases List.mem_cons.mp hmem with hh | hh
        · exact hh.symm
        · exact absurd hh hcht
      subst hch
      rw [List.foldl_cons]
      have hframe : ∀ ch' ∈ t, n ∉ chainWriteKeys ch' := by
        intro ch' hch' hnk
        have : ch' = h := hdisj ch' (List.mem_cons_of_mem _ hch') n hn hnk
        exact hcht (this ▸ hch')
      rw [staking_fold_frame oracle t _ n hframe]
      unfold paramsStep
      rw [hres]
      simp [hn]

/-! ## Infrastructure lemmas: price projection -/

/-- The flat observation list the price projection should produce: one
observation per (chain, denom) entry of the stored price map. -/
def priceObsList (data : PriceData) : List MetricObservation :=
  data.prices.flatMap
    (fun cp => cp.2.map (fun dp => ⟨priceLabels cp.1 dp.1 dp.2, dp.2.value⟩))

/-- Setting a label assignment not yet present appends a fresh series. -/
theorem gaugeSet_not_mem (obs : List MetricObservation) (ls : List (String × String))
    (v : Rat) (h : ∀ o ∈ obs, ¬o.labels = ls) :
    gaugeSet obs ls v = obs ++ [⟨ls, v⟩] := by
  unfold gaugeSet
  rw [if_neg]
  intro hx
  rw [List.any_eq_true] at hx
  obtain ⟨o, ho, heq⟩ := hx
  exact h o ho (of_decide_eq_true heq)

/-- The price label assignment determines the chain and the denom. -/
theorem priceLabels_inj (c₁ d₁ : String) (p₁ : PriceInfo) (c₂ d₂ : String) (p₂ : PriceInfo)
    (h : priceLabels c₁ d₁ p₁ = priceLabels c₂ d₂ p₂) : c₁ = c₂ ∧ d₁ = d₂ := by
  simp only [priceLabels, List.cons.injEq, Prod.mk.injEq] at h
  exact ⟨h.1.2, h.2.1.2⟩

/-- The inner denom loop only appends fresh series when the accumulated
observations avoid this chain's labels and the denom keys are unique. -/
theorem priceInnerFold (c : String) (ps : List (String × PriceInfo))
    (obs : List MetricObservation)
    (hdisj : ∀ o ∈ obs, ∀ dp ∈ ps, ¬o.labels = priceLabels c dp.1 dp.2)
    (hnodup : (ps.map Prod.fst).Nodup) :
    ps.foldl (fun acc2 dp => gaugeSet acc2 (priceLabels c dp.1 dp.2) dp.2.value) obs =
      obs ++ ps.map (fun dp => ⟨priceLabels c dp.1 dp.2, dp.2.value⟩) := by
  induction ps generalizing obs with
  | nil => simp
  | cons dp t ih =>
    rw [List.foldl_cons]
    rw [gaugeSet_not_mem _ _ _ (fun o ho => hdisj o ho dp (List.mem_cons_self _ _))]
    rw [List.map_cons] at hnodup
    have hd : dp.1 ∉ t.map Prod.fst := (List.nodup_cons.mp hnodup).1
    have ht : (t.map Prod.fst).Nodup := (List.nodup_cons.mp hnodup).2
    rw [ih _ ?_ ht]
    · simp
    · intro o ho dp' hdp'
      rcases List.mem_append.mp ho with ho | ho
      · exact hdisj o ho dp' (List.mem_cons_of_mem _ hdp')
      · have : o = ⟨priceLabels c dp.1 dp.2, dp.2.value⟩ := by simpa using ho
        subst this
        intro heq
        have := (priceLabels_inj _ _ _ _ _ _ heq).2
        exact hd (this ▸ List.mem_map_of_mem Prod.fst hdp')

/-- The double loop of the price projection produces exactly the flat
observation list when the chain keys and per-chain denom keys are unique. -/
theorem priceOuterFold (prices : List (String × List (String × PriceInfo)))
    (obs : List MetricObservation)
    (hdisj : ∀ o ∈ obs, ∀ cp ∈ prices, ∀ dp ∈ cp.2, ¬o.labels = priceLabels cp.1 dp.1 dp.2)
    (h1 : (prices.map Prod.fst).Nodup)
    (h2 : ∀ cp ∈ prices, (cp.2.map Prod.fst).Nodup) :
    priceFold prices obs = obs ++ priceObsList ⟨prices⟩ := by
  induction prices generalizing obs with
  | nil => simp [priceFold, priceObsList]
  | cons cp t ih =>
    unfold priceFold
    rw [List.foldl_cons]
    have hinner := priceInnerFold cp.1 cp.2 obs
      (fun o ho dp hdp => hdisj o ho cp (List.mem_cons_self _ _) dp hdp)
      (h2 cp (List.mem_cons_self _ _))
    rw [hinner]
    rw [List.map_cons] at h1
    have hc : cp.1 ∉ t.map Prod.fst := (List.nodup_cons.mp h1).1
    have ht1 : (t.map Prod.fst).Nodup := (List.nodup_cons.mp h1).2
    have := ih (obs ++ cp.2.map (fun dp => ⟨priceLabels cp.1 dp.1 dp.2, dp.2.value⟩)) ?_ ht1
      (fun cp' hcp' => h2 cp' (List.mem_cons_of_mem _ hcp'))
    · unfold priceFold at this
      rw [this]
      simp [priceObsList]
    · intro o ho cp' hcp' dp' hdp'
      rcases List.mem_append.mp ho with ho | ho
      · exact hdisj o ho cp' (List.mem_cons_of_mem _ hcp') dp' hdp'
      · obtain ⟨dp, hdp, hoeq⟩ := List.mem_map.mp ho
        subst hoeq
        intro heq
        have := (priceLabels_inj _ _ _ _ _ _ heq).1
        exact hc (this ▸ List.mem_map_of_mem Prod.fst hcp')

/-! ## Claim theorems -/

/-- A filterMap whose function is total on the input keeps its length. -/
theorem filterMap_length_of_isSome {α β : Type} (f : α → Option β) (l : List α)
    (h : ∀ a ∈ l, (f a).isSome = true) : (l.filterMap f).length = l.length := by
  induction l with
  | nil => rfl
  | cons a t ih =>
    rw [List.filterMap_cons]
    cases hf : f a
    · exact absurd (hf ▸ h a (List.mem_cons_self _ _)) (by simp)
    · simp [ih (fun a' ha' => h a' (List.mem_cons_of_mem _ ha'))]

/-- C2: the typed snapshot lookup returns not-found both for an identity
that was never written and for one whose stored value has a mismatched
runtime type, and the two cases are observably identical (both yield
`none`). -/
theorem stateGet_not_found (s : State) (name : String)
    (h : stateLookup s name = none ∨
      ∃ v, stateLookup s name = some v ∧ v.asPrice = none) :
    StateGetPrice s name = none := by
  rcases h with h | ⟨v, hv, hvp⟩
  · simp [StateGetPrice, h]
  · simp [StateGetPrice, hv, hvp]

/-- A concrete snapshot whose price identity holds a value of the wrong
runtime type. -/
def wState : State := ⟨[(FetcherNamePrice, StateValue.unbonds ⟨fun _ => none⟩)]⟩

/-- Witness for C2: a type-mismatched entry under the price identity is
reported as not-found. -/
theorem stateGet_not_found_witness :
    (stateLookup wState FetcherNamePrice = none ∨
      ∃ v, stateLookup wState FetcherNamePrice = some v ∧ v.asPrice = none) ∧
    StateGetPrice wState FetcherNamePrice = none :=
  ⟨Or.inr ⟨StateValue.unbonds ⟨fun _ => none⟩, rfl, rfl⟩,
    stateGet_not_found wState FetcherNamePrice
      (Or.inr ⟨StateValue.unbonds ⟨fun _ => none⟩, rfl, rfl⟩)⟩

/-- C3: when the price entry is absent from the snapshot or stored with a
mismatched type, `PriceGenerator.Generate` returns the empty collector list
rather than failing. -/
theorem priceGenerator_absent_empty (s : State)
    (h : stateLookup s FetcherNamePrice = none ∨
      ∃ v, stateLookup s FetcherNamePrice = some v ∧ v.asPrice = none) :
    PriceGenerator.Generate s = [] := by
  have hget : StateGetPrice s FetcherNamePrice = none := by
    rcases h with h | ⟨v, hv, hvp⟩
    · simp [StateGetPrice, h]
    · simp [StateGetPrice, hv, hvp]
  simp [PriceGenerator.Generate, hget]

/-- Witness for C3: the projection on the mismatched snapshot yields zero
metrics. -/
theorem priceGenerator_absent_empty_witness :
    (stateLookup wState FetcherNamePrice = none ∨
      ∃ v, stateLookup wState FetcherNamePrice = some v ∧ v.asPrice = none) ∧
    PriceGenerator.Generate wState = [] :=
  ⟨Or.inr ⟨StateValue.unbonds ⟨fun _ => none⟩, rfl, rfl⟩,
    priceGenerator_absent_empty wState
      (Or.inr ⟨StateValue.unbonds ⟨fun _ => none⟩, rfl, rfl⟩)⟩

/-- C6: the projection is a pure function of the snapshot: run in a state
monad where mutation is expressible, it returns exactly the pure function's
value and leaves the state it was given unchanged, and equal snapshots give
equal metric sets. -/
theorem priceGenerator_pure (s t : State) (h : s = t) :
    PriceGenerator.GenerateM.run s = (PriceGenerator.Generate s, s) ∧
    PriceGenerator.Generate s = PriceGenerator.Generate t := by
  subst h
  refine ⟨?_, rfl⟩
  show (PriceGenerator.GenerateM s : List GaugeVec × State) = _
  unfold PriceGenerator.GenerateM PriceGenerator.Generate
  cases hx : StateGetPrice s FetcherNamePrice <;>
    simp [StateT.run, bind, StateT.bind, get, getThe, MonadStateOf.get, StateT.get,
      pure, StateT.pure, hx]

/-- Witness for C6 at the concrete snapshot. -/
theorem priceGenerator_pure_witness :
    wState = wState ∧
    (PriceGenerator.GenerateM.run wState = (PriceGenerator.Generate wState, wState) ∧
      PriceGenerator.Generate wState = PriceGenerator.Generate wState) :=
  ⟨rfl, priceGenerator_pure wState wState rfl⟩

/-- The fan-out's output map as a fold of map steps over the sub-units. -/
theorem unbondsFetch_unbonds_eq (q : UnbondsFetcher) (d : List DepOutput) :
    (q.Fetch d).1.unbonds =
      (unbondsSubUnits q.chains).foldl (unbondsMapStep q.rpc) (unbondsInit q.chains) := by
  show (unbondsFetchSched q.rpc q.chains (unbondsSubUnits q.chains)).unbonds = _
  unfold unbondsFetchSched
  rw [unbonds_foldl_unbonds]

/-- The fan-out's diagnostics as the non-nil query records of the sub-units. -/
theorem unbondsFetch_queries_eq (q : UnbondsFetcher) (d : List DepOutput) :
    (q.Fetch d).2 = (unbondsSubUnits q.chains).filterMap (fun u => (q.rpc u.1 u.2).query) := by
  show (unbondsFetchSched q.rpc q.chains (unbondsSubUnits q.chains)).queryInfos = _
  unfold unbondsFetchSched
  rw [unbonds_foldl_queries]
  rfl

/-- C1: a failed remote sub-call does not abort the others. The output map
holds exactly the cells of the succeeding sub-calls; with the RPC-client
contract that every call produces a diagnostic record, every sub-call
(failed ones included) contributes exactly its one record; and when every
sub-call fails the task still returns an (empty-celled) output and its
diagnostics rather than an error. -/
theorem unbonds_fetch_partial_failure (q : UnbondsFetcher) (d : List DepOutput)
    (hq : ∀ u ∈ unbondsSubUnits q.chains, ((q.rpc u.1 u.2).query).isSome = true) :
    (∀ c v, lookupUnbond (q.Fetch d).1.unbonds c v =
      if (c, v) ∈ unbondsSubUnits q.chains ∧ unitOk q.rpc c v = true then
        some (unitTotal q.rpc c v)
      else none) ∧
    (q.Fetch d).2 = (unbondsSubUnits q.chains).filterMap (fun u => (q.rpc u.1 u.2).query) ∧
    (q.Fetch d).2.length = (unbondsSubUnits q.chains).length ∧
    ((∀ u ∈ unbondsSubUnits q.chains, unitOk q.rpc u.1 u.2 = false) →
      ∀ c v, lookupUnbond (q.Fetch d).1.unbonds c v = none) := by
  have hcell : ∀ c v, lookupUnbond (q.Fetch d).1.unbonds c v =
      if (c, v) ∈ unbondsSubUnits q.chains ∧ unitOk q.rpc c v = true then
        some (unitTotal q.rpc c v)
      else none := by
    intro c v
    rw [unbondsFetch_unbonds_eq, foldl_mapStep_lookup, lookupUnbond_init]
    by_cases hmem : (c, v) ∈ unbondsSubUnits q.chains
    · have hs := subUnit_init_isSome q.chains c v hmem
      by_cases hok : unitOk q.rpc c v = true <;> simp [hmem, hok, hs]
    · simp [hmem]
  refine ⟨hcell, unbondsFetch_queries_eq q d, ?_, ?_⟩
  · rw [unbondsFetch_queries_eq]
    exact filterMap_length_of_isSome _ _ hq
  · intro hfail c v
    rw [hcell c v]
    by_cases hmem : (c, v) ∈ unbondsSubUnits q.chains
    · simp [hmem, hfail (c, v) hmem]
    · simp [hmem]

/-- A concrete unbonds fetcher: one chain, one succeeding and one failing
validator, every call producing a diagnostic record. -/
def wUnbondsFetcher : UnbondsFetcher :=
  ⟨[⟨"chainA", [⟨"val1"⟩, ⟨"val2"⟩], []⟩],
    fun _ v =>
      if v = "val1" then ⟨some ⟨⟨5⟩⟩, some ⟨"q1", true, 10⟩, none⟩
      else ⟨none, some ⟨"q2", false, 20⟩, some "timeout"⟩⟩

/-- Witness for C1 at the concrete fetcher. -/
theorem unbonds_fetch_partial_failure_witness :
    (∀ u ∈ unbondsSubUnits wUnbondsFetcher.chains,
      ((wUnbondsFetcher.rpc u.1 u.2).query).isSome = true) ∧
    ((∀ c v, lookupUnbond (wUnbondsFetcher.Fetch []).1.unbonds c v =
      if (c, v) ∈ unbondsSubUnits wUnbondsFetcher.chains ∧
          unitOk wUnbondsFetcher.rpc c v = true then
        some (unitTotal wUnbondsFetcher.rpc c v)
      else none) ∧
    (wUnbondsFetcher.Fetch []).2 =
      (unbondsSubUnits wUnbondsFetcher.chains).filterMap
        (fun u => (wUnbondsFetcher.rpc u.1 u.2).query) ∧
    (wUnbondsFetcher.Fetch []).2.length = (unbondsSubUnits wUnbondsFetcher.chains).length ∧
    ((∀ u ∈ unbondsSubUnits wUnbondsFetcher.chains,
        unitOk wUnbondsFetcher.rpc u.1 u.2 = false) →
      ∀ c v, lookupUnbond (wUnbondsFetcher.Fetch []).1.unbonds c v = none)) :=
  ⟨by decide, unbonds_fetch_partial_failure wUnbondsFetcher [] (by decide)⟩

/-- A chain with no validators launches no sub-units. -/
theorem unbondsSubUnits_nil (chains : List Chain)
    (h : ∀ ch ∈ chains, ch.validators = []) : unbondsSubUnits chains = [] := by
  induction chains with
  | nil => rfl
  | cons ch t ih =>
    unfold unbondsSubUnits
    rw [List.flatMap_cons, h ch (List.mem_cons_self _ _)]
    simp only [List.map_nil, List.nil_append]
    exact ih (fun ch' hch' => h ch' (List.mem_cons_of_mem _ hch'))

/-- A concrete unbonds fetcher configured with one chain that has zero
validators. -/
def zeroTargetFetcher : UnbondsFetcher :=
  ⟨[⟨"chainA", [], []⟩], fun _ _ => ⟨none, none, none⟩⟩

/-- C4 counterexample: with one configured chain and zero validators the
task produces zero diagnostics, but its output map is NOT empty — it still
contains the chain's key (mapped to an empty inner map), so the claim's
"empty output map" fails as stated. -/
theorem unbonds_zero_targets_counterexample :
    ((zeroTargetFetcher.Fetch []).1.unbonds "chainA").isSome = true ∧
    (zeroTargetFetcher.Fetch []).2 = [] := by
  constructor
  · decide
  · decide

/-- C4 (amended): a task configured with zero remote targets returns an
output holding no data cells — an empty inner map per configured chain, and
an empty outer map exactly when no chain is configured — and zero
diagnostics, not an error. -/
theorem unbonds_zero_targets_amended (q : UnbondsFetcher) (d : List DepOutput)
    (h : ∀ ch ∈ q.chains, ch.validators = []) :
    (∀ c v, lookupUnbond (q.Fetch d).1.unbonds c v = none) ∧
    (q.Fetch d).2 = [] ∧
    (q.chains = [] → (q.Fetch d).1.unbonds = fun _ => none) := by
  have hsub : unbondsSubUnits q.chains = [] := unbondsSubUnits_nil q.chains h
  refine ⟨?_, ?_, ?_⟩
  · intro c v
    rw [unbondsFetch_unbonds_eq, hsub]
    exact lookupUnbond_init q.chains c v
  · rw [unbondsFetch_queries_eq, hsub]
    rfl
  · intro hchains
    rw [unbondsFetch_unbonds_eq, hsub]
    funext n
    rw [List.foldl_nil, unbondsInit_eq, hchains]
    simp

/-- Witness for the amended C4 at the concrete zero-validator fetcher. -/
theorem unbonds_zero_targets_amended_witness :
    (∀ ch ∈ zeroTargetFetcher.chains, ch.validators = []) ∧
    ((∀ c v, lookupUnbond (zeroTargetFetcher.Fetch []).1.unbonds c v = none) ∧
    (zeroTargetFetcher.Fetch []).2 = [] ∧
    (zeroTargetFetcher.chains = [] → (zeroTargetFetcher.Fetch []).1.unbonds = fun _ => none)) :=
  ⟨by decide, unbonds_zero_targets_amended zeroTargetFetcher [] (by decide)⟩

/-- `StakingParamsFetcher.Fetch` run under a given interleaving of its
per-chain critical sections. -/
def stakingFetchSched (oracle : String → StakingParamsCall) (order : List Chain) : StakingAcc :=
  order.foldl (stakingApplyChain oracle) { params := fun _ => none, queryInfos := [] }

/-- The interleaved staking fan-out's params map as a fold of params steps. -/
theorem staking_sched_params_eq (oracle : String → StakingParamsCall) (order : List Chain) :
    (stakingFetchSched oracle order).params =
      order.foldl (paramsStep oracle) (fun _ => none) := by
  unfold stakingFetchSched
  rw [staking_foldl_params]

/-- The interleaved staking fan-out's diagnostics are the non-nil query
records of the processed chains, in processing order. -/
theorem staking_sched_queries_eq (oracle : String → StakingParamsCall) (order : List Chain) :
    (stakingFetchSched oracle order).queryInfos =
      order.filterMap (fun ch => (oracle ch.name).query) := by
  unfold stakingFetchSched
  rw [staking_foldl_queries]
  rfl

/-- Chains that either do not write a key or write nothing (failure or nil
params) leave that key unchanged. -/
theorem staking_fold_frame_weak (oracle : String → StakingParamsCall)
    (l : List Chain) (m : ParamsMap) (n : String)
    (h : ∀ ch ∈ l, n ∈ chainWriteKeys ch → chainParamsResult oracle ch = none) :
    (l.foldl (paramsStep oracle) m) n = m n := by
  induction l generalizing m with
  | nil => rfl
  | cons hd t ih =>
    rw [List.foldl_cons, ih _ (fun ch' hch' => h ch' (List.mem_cons_of_mem _ hch'))]
    unfold paramsStep
    cases hr : chainParamsResult oracle hd with
    | none => rfl
    | some p =>
      by_cases hk : n ∈ chainWriteKeys hd
      · have hnone := h hd (List.mem_cons_self _ _) hk
        rw [hnone] at hr
        exact Option.noConfusion hr
      · simp [hk]

/-- No map write is lost: a key some chain successfully writes ends up
holding a value genuinely written by a successful writer of that key. -/
theorem staking_fold_written (oracle : String → StakingParamsCall)
    (l : List Chain) (m : ParamsMap) (n : String)
    (hw : ∃ ch ∈ l, n ∈ chainWriteKeys ch ∧ (chainParamsResult oracle ch).isSome = true) :
    ∃ ch' ∈ l, ∃ p', n ∈ chainWriteKeys ch' ∧ chainParamsResult oracle ch' = some p' ∧
      (l.foldl (paramsStep oracle) m) n = some p' := by
  induction l generalizing m with
  | nil =>
    obtain ⟨ch, hch, _⟩ := hw
    exact absurd hch (List.not_mem_nil _)
  | cons hd t ih =>
    rw [List.foldl_cons]
    by_cases ht : ∃ ch' ∈ t, n ∈ chainWriteKeys ch' ∧ (chainParamsResult oracle ch').isSome = true
    · obtain ⟨ch', hch', p', hk', hr', hval⟩ := ih (paramsStep oracle m hd) ht
      exact ⟨ch', List.mem_cons_of_mem _ hch', p', hk', hr', hval⟩
    · obtain ⟨ch₀, hch₀, hk₀, hs₀⟩ := hw
      have hh : ch₀ = hd := by
        rcases List.mem_cons.mp hch₀ with hh | hh
        · exact hh
        · exact absurd ⟨ch₀, hh, hk₀, hs₀⟩ ht
      subst hh
      obtain ⟨p, hp⟩ := Option.isSome_iff_exists.mp hs₀
      have hframe : ∀ ch' ∈ t, n ∈ chainWriteKeys ch' → chainParamsResult oracle ch' = none := by
        intro ch' hch' hk'
        cases hcr : chainParamsResult oracle ch' with
        | none => rfl
        | some p' => exact absurd ⟨ch', hch', hk', by rw [hcr]; rfl⟩ ht
      rw [staking_fold_frame_weak oracle t _ n hframe]
      refine ⟨ch₀, List.mem_cons_self _ _, p, hk₀, hp, ?_⟩
      unfold paramsStep
      rw [hp]
      simp [hk₀]

/-- Two chains' params steps commute when they are the same chain or their
write-key sets are disjoint. -/
theorem paramsStep_comm_of_disjoint (oracle : String → StakingParamsCall) (ch ch' : Chain)
    (h : ch = ch' ∨ ∀ n ∈ chainWriteKeys ch, n ∉ chainWriteKeys ch') (m : ParamsMap) :
    paramsStep oracle (paramsStep oracle m ch) ch' =
      paramsStep oracle (paramsStep oracle m ch') ch := by
  rcases h with h | h
  · subst h
    rfl
  · unfold paramsStep
    cases hr : chainParamsResult oracle ch <;> cases hr' : chainParamsResult oracle ch'
    · rfl
    · rfl
    · rfl
    · funext k
      by_cases hk : k ∈ chainWriteKeys ch
      · have hk' : k ∉ chainWriteKeys ch' := h k hk
        simp [hk, hk']
      · by_cases hk' : k ∈ chainWriteKeys ch' <;> simp [hk, hk']

/-- C7: mutex linearization of both fan-outs. Every shared write in
`UnbondsFetcher.Fetch` and `StakingParamsFetcher.Fetch` happens inside a
sub-unit's critical section under the per-fetch mutex, so an execution is a
permutation of the sub-unit list and no two writes overlap.  For the
unbonds fan-out every interleaving gives the same output map, a permutation
of the same diagnostics, and loses no successful write.  For the
staking-params fan-out every interleaving gives a permutation of the same
diagnostics, loses no write — a key written by a successful chain ends up
holding a value genuinely written by a successful writer of that key (the
interleaving's last such writer) — and gives the same output map whenever
no two configured chains share a write key. -/
theorem fetch_mutex_linearization (qu : UnbondsFetcher) (qs : StakingParamsFetcher)
    (d : List DepOutput)
    (uorder : List (String × String)) (hu : uorder.Perm (unbondsSubUnits qu.chains))
    (sorder : List Chain) (hsp : sorder.Perm qs.chains) :
    (unbondsFetchSched qu.rpc qu.chains uorder).unbonds = (qu.Fetch d).1.unbonds ∧
    (unbondsFetchSched qu.rpc qu.chains uorder).queryInfos.Perm (qu.Fetch d).2 ∧
    (∀ u ∈ uorder, unitOk qu.rpc u.1 u.2 = true →
      lookupUnbond (unbondsFetchSched qu.rpc qu.chains uorder).unbonds u.1 u.2 =
        some (unitTotal qu.rpc u.1 u.2)) ∧
    (stakingFetchSched qs.rpc sorder).queryInfos.Perm (qs.Fetch d).2 ∧
    (∀ ch ∈ sorder, ∀ p, chainParamsResult qs.rpc ch = some p →
      ∀ n ∈ chainWriteKeys ch, ∃ ch' ∈ sorder, ∃ p',
        n ∈ chainWriteKeys ch' ∧ chainParamsResult qs.rpc ch' = some p' ∧
        (stakingFetchSched qs.rpc sorder).params n = some p') ∧
    ((∀ ch ∈ qs.chains, ∀ ch' ∈ qs.chains, ch ≠ ch' →
        ∀ n ∈ chainWriteKeys ch, n ∉ chainWriteKeys ch') →
      (stakingFetchSched qs.rpc sorder).params = (qs.Fetch d).1.params) := by
  have hsched : (unbondsFetchSched qu.rpc qu.chains uorder).unbonds =
      uorder.foldl (unbondsMapStep qu.rpc) (unbondsInit qu.chains) := by
    unfold unbondsFetchSched
    rw [unbonds_foldl_unbonds]
  have hfq : (qs.Fetch d).2 = qs.chains.filterMap (fun ch => (qs.rpc ch.name).query) := by
    show (qs.chains.foldl (stakingApplyChain qs.rpc) ⟨fun _ => none, []⟩).queryInfos = _
    rw [staking_foldl_queries]
    rfl
  have hfp : (qs.Fetch d).1.params = qs.chains.foldl (paramsStep qs.rpc) (fun _ => none) := by
    show (qs.chains.foldl (stakingApplyChain qs.rpc) ⟨fun _ => none, []⟩).params = _
    rw [staking_foldl_params]
  refine ⟨?_, ?_, ?_, ?_, ?_, ?_⟩
  · rw [hsched, unbondsFetch_unbonds_eq]
    exact foldl_perm_of_comm (unbondsMapStep_comm qu.rpc) hu _
  · have h1 : (unbondsFetchSched qu.rpc qu.chains uorder).queryInfos =
        uorder.filterMap (fun u => (qu.rpc u.1 u.2).query) := by
      unfold unbondsFetchSched
      rw [unbonds_foldl_queries]
      rfl
    rw [h1, unbondsFetch_queries_eq]
    exact hu.filterMap _
  · intro u humem hok
    have hmem : u ∈ unbondsSubUnits qu.chains := hu.mem_iff.mp humem
    have hsome : ((unbondsInit qu.chains) u.1).isSome = true :=
      subUnit_init_isSome qu.chains u.1 u.2 (by rcases u with ⟨c, v⟩; exact hmem)
    rw [hsched, foldl_mapStep_lookup]
    rcases u with ⟨c, v⟩
    simp [humem, hok, hsome]
  · rw [staking_sched_queries_eq, hfq]
    exact hsp.filterMap _
  · intro ch hch p hp n hn
    rw [staking_sched_params_eq]
    exact staking_fold_written qs.rpc sorder _ n ⟨ch, hch, hn, by rw [hp]; rfl⟩
  · intro hdisj
    rw [staking_sched_params_eq, hfp]
    refine hsp.foldl_eq' ?_ _
    intro x hx y hy z
    by_cases hxy : x = y
    · subst hxy
      rfl
    · exact paramsStep_comm_of_disjoint qs.rpc x y
        (Or.inr (hdisj x (hsp.subset hx) y (hsp.subset hy) hxy)) z

/-- A concrete unbonds interleaving: the two sub-units reversed. -/
def wUnbondsOrder : List (String × String) := [("chainA", "val2"), ("chainA", "val1")]

/-- A concrete staking-params fetcher with two provider chains (one with a
consumer) whose write keys are disjoint, both queries succeeding. -/
def wStakingFetcher2 : StakingParamsFetcher :=
  ⟨[⟨"prov1", [], [⟨"cons1"⟩]⟩, ⟨"prov2", [], []⟩],
    fun c =>
      if c = "prov1" then ⟨some ⟨7⟩, some ⟨"qs1", true, 3⟩, none⟩
      else ⟨some ⟨9⟩, some ⟨"qs2", true, 4⟩, none⟩⟩

/-- A concrete staking interleaving: the two chains reversed. -/
def wStakingOrder : List Chain := [⟨"prov2", [], []⟩, ⟨"prov1", [], [⟨"cons1"⟩]⟩]

/-- Witness for C7: reversed interleavings of both concrete fan-outs. -/
theorem fetch_mutex_linearization_witness :
    wUnbondsOrder.Perm (unbondsSubUnits wUnbondsFetcher.chains) ∧
    wStakingOrder.Perm wStakingFetcher2.chains ∧
    ((unbondsFetchSched wUnbondsFetcher.rpc wUnbondsFetcher.chains wUnbondsOrder).unbonds =
        (wUnbondsFetcher.Fetch []).1.unbonds ∧
      (unbondsFetchSched wUnbondsFetcher.rpc wUnbondsFetcher.chains
          wUnbondsOrder).queryInfos.Perm (wUnbondsFetcher.Fetch []).2 ∧
      (∀ u ∈ wUnbondsOrder, unitOk wUnbondsFetcher.rpc u.1 u.2 = true →
        lookupUnbond (unbondsFetchSched wUnbondsFetcher.rpc wUnbondsFetcher.chains
            wUnbondsOrder).unbonds u.1 u.2 = some (unitTotal wUnbondsFetcher.rpc u.1 u.2)) ∧
      (stakingFetchSched wStakingFetcher2.rpc wStakingOrder).queryInfos.Perm
        (wStakingFetcher2.Fetch []).2 ∧
      (∀ ch ∈ wStakingOrder, ∀ p, chainParamsResult wStakingFetcher2.rpc ch = some p →
        ∀ n ∈ chainWriteKeys ch, ∃ ch' ∈ wStakingOrder, ∃ p',
          n ∈ chainWriteKeys ch' ∧ chainParamsResult wStakingFetcher2.rpc ch' = some p' ∧
          (stakingFetchSched wStakingFetcher2.rpc wStakingOrder).params n = some p') ∧
      ((∀ ch ∈ wStakingFetcher2.chains, ∀ ch' ∈ wStakingFetcher2.chains, ch ≠ ch' →
          ∀ n ∈ chainWriteKeys ch, n ∉ chainWriteKeys ch') →
        (stakingFetchSched wStakingFetcher2.rpc wStakingOrder).params =
          (wStakingFetcher2.Fetch []).1.params)) :=
  ⟨by decide, by decide,
    fetch_mutex_linearization wUnbondsFetcher wStakingFetcher2 [] wUnbondsOrder (by decide)
      wStakingOrder (by decide)⟩

/-- The output map depends on the oracle only through each sub-call's
success status and stored total. -/
theorem foldl_mapStep_congr (o₁ o₂ : String → String → UnbondsCall)
    (hok : ∀ c v, unitOk o₁ c v = unitOk o₂ c v)
    (htot : ∀ c v, unitOk o₁ c v = true → unitTotal o₁ c v = unitTotal o₂ c v)
    (l : List (String × String)) (m : UnbondsMap) :
    l.foldl (unbondsMapStep o₁) m = l.foldl (unbondsMapStep o₂) m := by
  induction l generalizing m with
  | nil => rfl
  | cons u t ih =>
    rw [List.foldl_cons, List.foldl_cons, unbondsMapStep_eq, unbondsMapStep_eq]
    by_cases h : unitOk o₂ u.1 u.2 = true
    · have h1 : unitOk o₁ u.1 u.2 = true := (hok u.1 u.2).trans h
      rw [if_pos h1, if_pos h, htot u.1 u.2 h1]
      exact ih _
    · have h1 : ¬unitOk o₁ u.1 u.2 = true := fun hh => h ((hok u.1 u.2).symm.trans hh)
      rw [if_neg h1, if_neg h]
      exact ih _

/-- C10: a diagnostic record is appended for a sub-call iff the call
produced a non-nil query record, success or not; a sub-call returning a nil
response with a nil error contributes no output cell and no error; and the
output map cannot distinguish such a call from a failed one — it depends
only on each sub-call's success status and stored total. -/
theorem unbonds_fetch_diag_iff_query (q : UnbondsFetcher) (d : List DepOutput)
    (o₂ : String → String → UnbondsCall)
    (hok : ∀ c v, unitOk q.rpc c v = unitOk o₂ c v)
    (htot : ∀ c v, unitOk q.rpc c v = true → unitTotal q.rpc c v = unitTotal o₂ c v) :
    ((q.Fetch d).2 = (unbondsSubUnits q.chains).filterMap (fun u => (q.rpc u.1 u.2).query)) ∧
    (∀ c v, unitOk q.rpc c v = false → lookupUnbond (q.Fetch d).1.unbonds c v = none) ∧
    (q.Fetch d).1.unbonds = (UnbondsFetcher.Fetch ⟨q.chains, o₂⟩ d).1.unbonds := by
  refine ⟨unbondsFetch_queries_eq q d, ?_, ?_⟩
  · intro c v hfail
    rw [unbondsFetch_unbonds_eq, foldl_mapStep_lookup, lookupUnbond_init]
    simp [hfail]
  · rw [unbondsFetch_unbonds_eq, unbondsFetch_unbonds_eq]
    exact foldl_mapStep_congr q.rpc o₂ hok htot _ _

/-- A fetcher whose single sub-call returns a nil response with a nil error
but a diagnostic record. -/
def nilRespFetcher : UnbondsFetcher :=
  ⟨[⟨"chainA", [⟨"val1"⟩], []⟩], fun _ _ => ⟨none, some ⟨"q1", true, 10⟩, none⟩⟩

/-- The same configuration where that sub-call instead fails with an error. -/
def errRespOracle : String → String → UnbondsCall :=
  fun _ _ => ⟨none, some ⟨"q1", true, 10⟩, some "boom"⟩

/-- Witness for C10: the nil-response/nil-error call and the erroring call
produce the same output map, both contribute their diagnostic record. -/
theorem unbonds_fetch_diag_iff_query_witness :
    (∀ c v, unitOk nilRespFetcher.rpc c v = unitOk errRespOracle c v) ∧
    (∀ c v, unitOk nilRespFetcher.rpc c v = true →
      unitTotal nilRespFetcher.rpc c v = unitTotal errRespOracle c v) ∧
    (((nilRespFetcher.Fetch []).2 =
      (unbondsSubUnits nilRespFetcher.chains).filterMap
        (fun u => (nilRespFetcher.rpc u.1 u.2).query)) ∧
    (∀ c v, unitOk nilRespFetcher.rpc c v = false →
      lookupUnbond (nilRespFetcher.Fetch []).1.unbonds c v = none) ∧
    (nilRespFetcher.Fetch []).1.unbonds =
      (UnbondsFetcher.Fetch ⟨nilRespFetcher.chains, errRespOracle⟩ []).1.unbonds) :=
  ⟨fun _ _ => rfl, fun _ _ h => Bool.noConfusion h,
    unbonds_fetch_diag_iff_query nilRespFetcher [] errRespOracle
      (fun _ _ => rfl) (fun _ _ h => Bool.noConfusion h)⟩

/-- C9: both fetchers are leaf tasks — their declared dependency list is
empty — and their execution does not read the variadic dependency outputs:
with the remote responses fixed, any two dependency argument lists produce
identical results. -/
theorem fetchers_leaf_no_dependency_influence (qu : UnbondsFetcher)
    (qs : StakingParamsFetcher) (d₁ d₂ : List DepOutput) :
    qu.Dependencies = [] ∧ qs.Dependencies = [] ∧
    qu.Fetch d₁ = qu.Fetch d₂ ∧ qs.Fetch d₁ = qs.Fetch d₂ :=
  ⟨rfl, rfl, rfl, rfl⟩

/-- C8: when a chain's staking-params query succeeds with a non-nil result,
the fetcher stores that same params value under the provider chain's name
and under the name of every one of its consumer chains, so the output map
can contain more keys than chains queried (given that no other configured
chain writes those keys). -/
theorem staking_params_consumer_keys (q : StakingParamsFetcher) (d : List DepOutput)
    (ch : Chain) (p : StakingParamsResponse) (hmem : ch ∈ q.chains)
    (herr : (q.rpc ch.name).err = none) (hp : (q.rpc ch.name).params = some p)
    (hdisj : ∀ ch' ∈ q.chains, ∀ n ∈ chainWriteKeys ch, n ∈ chainWriteKeys ch' → ch' = ch) :
    (q.Fetch d).1.params ch.name = some p ∧
    ∀ cc ∈ ch.consumerChains, (q.Fetch d).1.params cc.name = some p := by
  have hres : chainParamsResult q.rpc ch = some p := by
    unfold chainParamsResult
    rw [herr]
    simpa using hp
  have hmap : (q.Fetch d).1.params =
      q.chains.foldl (paramsStep q.rpc) (fun _ => none) := by
    show (q.chains.foldl (stakingApplyChain q.rpc) ⟨fun _ => none, []⟩).params = _
    rw [staking_foldl_params]
  constructor
  · rw [hmap]
    exact staking_fold_keys q.rpc ch p hres q.chains _ hmem hdisj ch.name
      (List.mem_cons_self _ _)
  · intro cc hcc
    rw [hmap]
    exact staking_fold_keys q.rpc ch p hres q.chains _ hmem hdisj cc.name
      (List.mem_cons_of_mem _ (List.mem_map_of_mem ConsumerChain.name hcc))

/-- A concrete staking-params fetcher: a provider chain with two consumer
chains and a successful query. -/
def wStakingFetcher : StakingParamsFetcher :=
  ⟨[⟨"provider", [], [⟨"consumer1"⟩, ⟨"consumer2"⟩]⟩],
    fun _ => ⟨some ⟨7⟩, some ⟨"qs", true, 3⟩, none⟩⟩

/-- The provider chain of the concrete staking-params fetcher. -/
def wProviderChain : Chain := ⟨"provider", [], [⟨"consumer1"⟩, ⟨"consumer2"⟩]⟩

/-- Witness for C8: the params land under the provider name and both
consumer names. -/
theorem staking_params_consumer_keys_witness :
    wProviderChain ∈ wStakingFetcher.chains ∧
    (wStakingFetcher.rpc wProviderChain.name).err = none ∧
    (wStakingFetcher.rpc wProviderChain.name).params = some ⟨7⟩ ∧
    (∀ ch' ∈ wStakingFetcher.chains, ∀ n ∈ chainWriteKeys wProviderChain,
      n ∈ chainWriteKeys ch' → ch' = wProviderChain) ∧
    ((wStakingFetcher.Fetch []).1.params wProviderChain.name = some ⟨7⟩ ∧
      ∀ cc ∈ wProviderChain.consumerChains,
        (wStakingFetcher.Fetch []).1.params cc.name = some ⟨7⟩) :=
  ⟨by decide, rfl, rfl, by decide,
    staking_params_consumer_keys wStakingFetcher [] wProviderChain ⟨7⟩
      (by decide) rfl rfl (by decide)⟩

/-- Distinct (chain, denom) keys give pairwise distinct label assignments
in the flat observation list. -/
theorem priceObsList_labels_nodup (data : PriceData)
    (h1 : (data.prices.map Prod.fst).Nodup)
    (h2 : ∀ cp ∈ data.prices, (cp.2.map Prod.fst).Nodup) :
    ((priceObsList data).map MetricObservation.labels).Nodup := by
  have heq : (priceObsList data).map MetricObservation.labels =
      data.prices.flatMap (fun cp => cp.2.map (fun dp => priceLabels cp.1 dp.1 dp.2)) := by
    unfold priceObsList
    rw [List.map_flatMap]
    congr 1
    funext cp
    rw [List.map_map]
    rfl
  rw [heq, List.nodup_flatMap]
  constructor
  · intro cp hcp
    refine List.Nodup.map_on ?_ ((h2 cp hcp).of_map _)
    intro dp hdp dp' hdp' hlab
    have hfst : dp.1 = dp'.1 := (priceLabels_inj _ _ _ _ _ _ hlab).2
    exact List.inj_on_of_nodup_map (h2 cp hcp) hdp hdp' hfst
  · have hp : data.prices.Pairwise (fun cp cp' => cp.1 ≠ cp'.1) :=
      List.pairwise_map.mp h1
    refine hp.imp ?_
    intro cp cp' hne x hx hx'
    obtain ⟨dp, _, hxe⟩ := List.mem_map.mp hx
    obtain ⟨dp', _, hxe'⟩ := List.mem_map.mp hx'
    exact hne ((priceLabels_inj _ _ _ _ _ _ (hxe.trans hxe'.symm)).1)

/-- C5: with the price entry present, the projection emits exactly one
observation per (chain, denom) pair of the stored price map, labelled with
that chain, denom, the price's source and base currency and carrying the
price's value, and nothing else; distinct pairs give distinct label
assignments (one time series per tuple). -/
theorem priceGenerator_per_pair (s : State) (data : PriceData)
    (h : StateGetPrice s FetcherNamePrice = some data)
    (h1 : (data.prices.map Prod.fst).Nodup)
    (h2 : ∀ cp ∈ data.prices, (cp.2.map Prod.fst).Nodup) :
    PriceGenerator.Generate s =
      [{ name := metricsStem ++ "price"
         help := "Price of 1 token in display denom in USD"
         labelNames := ["chain", "denom", "source", "base_currency"]
         observations := priceObsList data }] ∧
    ((priceObsList data).map MetricObservation.labels).Nodup := by
  constructor
  · have hobs : priceFold data.prices [] = [] ++ priceObsList ⟨data.prices⟩ :=
      priceOuterFold data.prices []
        (fun o ho => absurd ho (List.not_mem_nil o)) h1 h2
    simp only [List.nil_append] at hobs
    simp [PriceGenerator.Generate, h, hobs]
  · exact priceObsList_labels_nodup data h1 h2

/-- A concrete price payload with two chains and one denom each. -/
def wPriceData : PriceData :=
  ⟨[("chainA", [("uatom", ⟨"coingecko", "usd", 5⟩)]),
    ("chainB", [("udenom", ⟨"coingecko", "usd", 7⟩)])]⟩

/-- A snapshot holding the concrete price payload under the price identity. -/
def wPriceState : State := ⟨[(FetcherNamePrice, StateValue.price wPriceData)]⟩

/-- Witness for C5 at the concrete snapshot. -/
theorem priceGenerator_per_pair_witness :
    StateGetPrice wPriceState FetcherNamePrice = some wPriceData ∧
    (wPriceData.prices.map Prod.fst).Nodup ∧
    (∀ cp ∈ wPriceData.prices, (cp.2.map Prod.fst).Nodup) ∧
    (PriceGenerator.Generate wPriceState =
      [{ name := metricsStem ++ "price"
         help := "Price of 1 token in display denom in USD"
         labelNames := ["chain", "denom", "source", "base_currency"]
         observations := priceObsList wPriceData }] ∧
    ((priceObsList wPriceData).map MetricObservation.labels).Nodup) :=
  ⟨rfl, by decide, by decide,
    priceGenerator_per_pair wPriceState wPriceData rfl (by decide) (by decide)⟩
